import Mathlib

/-!
Verification of the mergeable-state core of the beacon repository.

The two snapshot shapes are embedded directly from the Go source:

* `TodoState` with `Add` and `Merge`, from httpserver-example/state.go;
* `SudokuState` with `PlaceNumber` and `Merge`, from sudoku-example.

Go machine integers are modelled as `Int`; the `time.Now()` timestamp
consumed by `Add` is passed as an explicit argument.
-/

/-- Todo record from httpserver-example/state.go.  The `CreatedAt`
timestamp (produced by `time.Now()` in Go) is an opaque `Nat`. -/
structure Todo where
  ID : Int
  Title : String
  Completed : Bool
  CreatedAt : Nat
deriving DecidableEq

/-- Immutable state of all todos (httpserver-example/state.go). -/
structure TodoState where
  Todos : List Todo
  NextID : Int
deriving DecidableEq

/-- `TodoState.Add`: append one record with `ID = NextID`, bump the
counter.  The Go code copies the backing slice and writes the new record
at the end, which is list append; `now` stands for `time.Now()`. -/
def TodoState.Add (s : TodoState) (title : String) (now : Nat) : TodoState :=
  { Todos := s.Todos ++ [{ ID := s.NextID, Title := title, Completed := false, CreatedAt := now }],
    NextID := s.NextID + 1 }

/-- The two loops of `TodoState.Merge`: walk the concatenated record
list, keeping a record only when its ID is not in the `seen` set, and
adding its ID to `seen` when kept (first occurrence wins). -/
def dedupByID : List Todo → List Int → List Todo
  | [], _ => []
  | t :: ts, seen =>
      if t.ID ∈ seen then dedupByID ts seen
      else t :: dedupByID ts (t.ID :: seen)

/-- `TodoState.Merge`: deduplicate by ID over first `s.Todos` then
`other.Todos`; `NextID` is `max(other.NextID, s.NextID)` as in the Go
source. -/
def TodoState.Merge (s other : TodoState) : TodoState :=
  { Todos := dedupByID (s.Todos ++ other.Todos) [],
    NextID := max other.NextID s.NextID }

/-- Immutable 9x9 Sudoku board; `0` means empty cell
(sudoku-example/state.go).  The fixed-size Go array `[9][9]int` is a
total function on in-range indices. -/
structure SudokuState where
  Board : Fin 9 → Fin 9 → Int

instance : DecidableEq SudokuState := fun a b =>
  decidable_of_iff (a.Board = b.Board)
    ⟨fun h => by cases a; cases b; cases h; rfl, fun h => by rw [h]⟩

/-- The in-range tail of `SudokuState.PlaceNumber`: the write-once check
`s.Board[row][col] != 0` followed by the single-cell write. -/
def placeCell (s : SudokuState) (r c : Fin 9) (num : Int) : SudokuState :=
  if s.Board r c ≠ 0 then s
  else ⟨fun i j => if i = r ∧ j = c then num else s.Board i j⟩

/-- `SudokuState.PlaceNumber`: reject out-of-range coordinates, values
outside `0..9`, and writes to an already-filled cell, each by returning
the receiver; otherwise set exactly the one target cell. -/
def SudokuState.PlaceNumber (s : SudokuState) (row col num : Int) : SudokuState :=
  if h : row < 0 ∨ row > 8 ∨ col < 0 ∨ col > 8 then s
  else if num < 0 ∨ num > 9 then s
  else placeCell s ⟨row.toNat, by omega⟩ ⟨col.toNat, by omega⟩ num

/-- `SudokuState.Merge`: the cell-wise combinator with the four branches
of the Go loop body (empty takes other, non-empty kept against empty,
equal kept, conflict resolved in favour of the right operand). -/
def SudokuState.Merge (s other : SudokuState) : SudokuState :=
  ⟨fun row col =>
    if s.Board row col = 0 ∧ other.Board row col ≠ 0 then other.Board row col
    else if s.Board row col ≠ 0 ∧ other.Board row col = 0 then s.Board row col
    else if s.Board row col = other.Board row col then s.Board row col
    else other.Board row col⟩

/-- `CountFilled` from sudoku-example/state.go: number of non-zero cells. -/
def SudokuState.CountFilled (s : SudokuState) : Nat :=
  (Finset.univ.filter fun p : Fin 9 × Fin 9 => s.Board p.1 p.2 ≠ 0).card

/-- The record-ID sets of two todo snapshots are disjoint. -/
def TodosDisjoint (a b : TodoState) : Prop :=
  ∀ t ∈ a.Todos, ∀ u ∈ b.Todos, t.ID ≠ u.ID

instance (a b : TodoState) : Decidable (TodosDisjoint a b) :=
  inferInstanceAs (Decidable (∀ t ∈ a.Todos, ∀ u ∈ b.Todos, t.ID ≠ u.ID))

/-- No cell is filled in both grid snapshots. -/
def CellsDisjoint (s o : SudokuState) : Prop :=
  ∀ r c : Fin 9, s.Board r c = 0 ∨ o.Board r c = 0

instance (s o : SudokuState) : Decidable (CellsDisjoint s o) :=
  inferInstanceAs (Decidable (∀ r c : Fin 9, s.Board r c = 0 ∨ o.Board r c = 0))

/-- The two grid snapshots never disagree on a filled cell. -/
def NoCellConflict (s o : SudokuState) : Prop :=
  ∀ r c : Fin 9, s.Board r c = 0 ∨ o.Board r c = 0 ∨ s.Board r c = o.Board r c

instance (s o : SudokuState) : Decidable (NoCellConflict s o) :=
  inferInstanceAs (Decidable (∀ r c : Fin 9, s.Board r c = 0 ∨ o.Board r c = 0 ∨ s.Board r c = o.Board r c))

/-- The all-empty board. -/
def emptySudoku : SudokuState := ⟨fun _ _ => 0⟩

/-- A board whose top-left cell holds 5 and every other cell is empty. -/
def filledSudoku : SudokuState :=
  ⟨fun i j => if i = (0 : Fin 9) ∧ j = (0 : Fin 9) then 5 else 0⟩

/-- The state `NewServer` installs: no todos, counter at 1. -/
def newServerState : TodoState := { Todos := [], NextID := 1 }

/-- Fold `Add` over a list of (title, timestamp) pairs. -/
def addAll (s : TodoState) : List (String × Nat) → TodoState
  | [] => s
  | p :: rest => addAll (s.Add p.1 p.2) rest

-- Basic sanity checks of the embedding on concrete inputs.
example : (newServerState.Add "a" 0).NextID = 2 := by decide
example : (emptySudoku.PlaceNumber 0 0 5).Board 0 0 = 5 := by decide
example : (emptySudoku.PlaceNumber 0 0 5).PlaceNumber 0 0 7 = emptySudoku.PlaceNumber 0 0 5 := by decide
example : (filledSudoku.Merge emptySudoku).Board 0 0 = 5 := by decide

/-! ### Properties of first-occurrence deduplication -/

theorem dedupByID_mem {l : List Todo} {seen : List Int} {t : Todo}
    (h : t ∈ dedupByID l seen) : t ∈ l ∧ t.ID ∉ seen := by
  induction l generalizing seen with
  | nil => simp [dedupByID] at h
  | cons a as ih =>
      by_cases ha : a.ID ∈ seen
      · simp only [dedupByID, if_pos ha] at h
        obtain ⟨h1, h2⟩ := ih h
        exact ⟨List.mem_cons_of_mem _ h1, h2⟩
      · simp only [dedupByID, if_neg ha, List.mem_cons] at h
        rcases h with rfl | h
        · exact ⟨List.mem_cons_self _ _, ha⟩
        · obtain ⟨h1, h2⟩ := ih h
          simp only [List.mem_cons, not_or] at h2
          exact ⟨List.mem_cons_of_mem _ h1, h2.2⟩

theorem dedupByID_append_mem {l₁ l₂ : List Todo} {seen : List Int} {t : Todo}
    (h : t ∈ dedupByID (l₁ ++ l₂) seen) :
    t ∈ l₁ ∨ (t ∈ l₂ ∧ (∀ u ∈ l₁, u.ID ≠ t.ID) ∧ t.ID ∉ seen) := by
  induction l₁ generalizing seen with
  | nil =>
      obtain ⟨h1, h2⟩ := dedupByID_mem (by simpa using h)
      exact Or.inr ⟨h1, by simp, h2⟩
  | cons a as ih =>
      by_cases ha : a.ID ∈ seen
      · simp only [List.cons_append, dedupByID, if_pos ha] at h
        rcases ih h with h' | ⟨h1, h2, h3⟩
        · exact Or.inl (List.mem_cons_of_mem _ h')
        · refine Or.inr ⟨h1, ?_, h3⟩
          intro u hu
          rcases List.mem_cons.mp hu with rfl | hu'
          · intro hEq; exact h3 (hEq ▸ ha)
          · exact h2 u hu'
      · simp only [List.cons_append, dedupByID, if_neg ha, List.mem_cons] at h
        rcases h with rfl | h
        · exact Or.inl (List.mem_cons_self _ _)
        · rcases ih h with h' | ⟨h1, h2, h3⟩
          · exact Or.inl (List.mem_cons_of_mem _ h')
          · simp only [List.mem_cons, not_or] at h3
            refine Or.inr ⟨h1, ?_, h3.2⟩
            intro u hu
            rcases List.mem_cons.mp hu with rfl | hu'
            · intro hEq; exact h3.1 hEq.symm
            · exact h2 u hu'

theorem dedupByID_countP (l : List Todo) (seen : List Int) (i : Int) :
    (dedupByID l seen).countP (fun t => decide (t.ID = i)) =
      if i ∈ seen then 0 else if i ∈ l.map Todo.ID then 1 else 0 := by
  induction l generalizing seen with
  | nil => simp [dedupByID]
  | cons a as ih =>
      by_cases ha : a.ID ∈ seen
      · simp only [dedupByID, if_pos ha, ih]
        by_cases hi : i ∈ seen
        · simp [hi]
        · have hne : ¬(i = a.ID) := fun h => hi (h ▸ ha)
          simp [hi, List.mem_cons, or_iff_right hne]
      · simp only [dedupByID, if_neg ha, List.countP_cons, ih]
        by_cases hia : a.ID = i
        · subst hia
          have hi : a.ID ∉ seen := ha
          simp [hi, List.mem_cons]
        · by_cases hi : i ∈ seen
          · simp [hi, List.mem_cons, Ne.symm hia, hia]
          · simp [hi, List.mem_cons, Ne.symm hia, hia]

theorem dedupByID_congr_seen {l : List Todo} {s₁ s₂ : List Int}
    (h : ∀ t ∈ l, (t.ID ∈ s₁ ↔ t.ID ∈ s₂)) : dedupByID l s₁ = dedupByID l s₂ := by
  induction l generalizing s₁ s₂ with
  | nil => rfl
  | cons a as ih =>
      have ha := h a (List.mem_cons_self _ _)
      have hrest : ∀ t ∈ as, (t.ID ∈ s₁ ↔ t.ID ∈ s₂) :=
        fun t ht => h t (List.mem_cons_of_mem _ ht)
      by_cases h1 : a.ID ∈ s₁
      · have h2 : a.ID ∈ s₂ := ha.mp h1
        simp only [dedupByID, if_pos h1, if_pos h2, ih hrest]
      · have h2 : a.ID ∉ s₂ := fun hx => h1 (ha.mpr hx)
        simp only [dedupByID, if_neg h1, if_neg h2]
        congr 1
        refine ih fun t ht => ?_
        simp only [List.mem_cons]
        exact or_congr Iff.rfl (hrest t ht)

theorem dedupByID_seen_irrel {m : List Todo} {x : Int} {seen : List Int}
    (h : ∀ t ∈ m, t.ID ≠ x) : dedupByID m (x :: seen) = dedupByID m seen := by
  refine dedupByID_congr_seen fun t ht => ?_
  simp only [List.mem_cons]
  exact or_iff_right (h t ht)

theorem dedupByID_all_seen {m : List Todo} {seen : List Int}
    (h : ∀ t ∈ m, t.ID ∈ seen) : dedupByID m seen = [] := by
  induction m with
  | nil => rfl
  | cons a as ih =>
      have ha : a.ID ∈ seen := h a (List.mem_cons_self _ _)
      simp only [dedupByID, if_pos ha]
      exact ih fun t ht => h t (List.mem_cons_of_mem _ ht)

theorem dedupByID_append_subsumed {l m : List Todo} {seen : List Int}
    (h : ∀ t ∈ m, t.ID ∈ seen ∨ ∃ u ∈ l, u.ID = t.ID) :
    dedupByID (l ++ m) seen = dedupByID l seen := by
  induction l generalizing seen with
  | nil =>
      simp only [List.nil_append, dedupByID]
      exact dedupByID_all_seen fun t ht => by
        rcases h t ht with h' | ⟨u, hu, _⟩
        · exact h'
        · exact absurd hu (List.not_mem_nil u)
  | cons a as ih =>
      by_cases ha : a.ID ∈ seen
      · simp only [List.cons_append, dedupByID, if_pos ha]
        refine ih fun t ht => ?_
        rcases h t ht with h' | ⟨u, hu, hid⟩
        · exact Or.inl h'
        · rcases List.mem_cons.mp hu with rfl | hu'
          · exact Or.inl (hid ▸ ha)
          · exact Or.inr ⟨u, hu', hid⟩
      · simp only [List.cons_append, dedupByID, if_neg ha]
        congr 1
        refine ih fun t ht => ?_
        rcases h t ht with h' | ⟨u, hu, hid⟩
        · exact Or.inl (List.mem_cons_of_mem _ h')
        · rcases List.mem_cons.mp hu with rfl | hu'
          · exact Or.inl (hid ▸ List.mem_cons_self _ _)
          · exact Or.inr ⟨u, hu', hid⟩

theorem dedupByID_eq_self {l : List Todo} {seen : List Int}
    (hnd : (l.map Todo.ID).Nodup) (hs : ∀ t ∈ l, t.ID ∉ seen) :
    dedupByID l seen = l := by
  induction l generalizing seen with
  | nil => rfl
  | cons a as ih =>
      have ha : a.ID ∉ seen := hs a (List.mem_cons_self _ _)
      simp only [List.map_cons, List.nodup_cons] at hnd
      simp only [dedupByID, if_neg ha]
      congr 1
      refine ih hnd.2 fun t ht => ?_
      simp only [List.mem_cons, not_or]
      refine ⟨fun hEq => hnd.1 ?_, hs t (List.mem_cons_of_mem _ ht)⟩
      exact hEq ▸ List.mem_map_of_mem Todo.ID ht

theorem dedupByID_append_disjoint {l m : List Todo} {seen : List Int}
    (h : ∀ t ∈ m, ∀ u ∈ l, t.ID ≠ u.ID) :
    dedupByID (l ++ m) seen = dedupByID l seen ++ dedupByID m seen := by
  induction l generalizing seen with
  | nil => simp [dedupByID]
  | cons a as ih =>
      have hrest : ∀ t ∈ m, ∀ u ∈ as, t.ID ≠ u.ID :=
        fun t ht u hu => h t ht u (List.mem_cons_of_mem _ hu)
      by_cases ha : a.ID ∈ seen
      · simp only [List.cons_append, dedupByID, if_pos ha]
        exact ih hrest
      · simp only [List.cons_append, dedupByID, if_neg ha]
        congr 1
        have h2 : dedupByID m (a.ID :: seen) = dedupByID m seen :=
          dedupByID_seen_irrel fun t ht => h t ht a (List.mem_cons_self _ _)
        have h3 := @ih (a.ID :: seen) hrest
        rw [h2] at h3
        exact h3

theorem dedupByID_idem {m : List Todo} {s s' : List Int} (hsub : s' ⊆ s) :
    dedupByID (dedupByID m s') s = dedupByID m s := by
  induction m generalizing s s' with
  | nil => rfl
  | cons a as ih =>
      by_cases h1 : a.ID ∈ s'
      · have h2 : a.ID ∈ s := hsub h1
        simp only [dedupByID, if_pos h1, if_pos h2, ih hsub]
  
      · by_cases h2 : a.ID ∈ s
        · simp only [dedupByID, if_neg h1, if_pos h2]
          have hsub' : a.ID :: s' ⊆ s := by
            intro x hx
            rcases List.mem_cons.mp hx with rfl | hx'
            · exact h2
            · exact hsub hx'
          exact ih hsub'
        · simp only [dedupByID, if_neg h1, if_neg h2]
          congr 1
          have hsub' : a.ID :: s' ⊆ a.ID :: s := by
            intro x hx
            rcases List.mem_cons.mp hx with rfl | hx'
            · exact List.mem_cons_self _ _
            · exact List.mem_cons_of_mem _ (hsub hx')
          exact ih hsub'

theorem dedupByID_dedup_left {l m : List Todo} {s : List Int} :
    dedupByID (dedupByID l s ++ m) s = dedupByID (l ++ m) s := by
  induction l generalizing s with
  | nil => rfl
  | cons a as ih =>
      by_cases ha : a.ID ∈ s
      · simp only [dedupByID, if_pos ha, ih]
        rfl
      · simp only [dedupByID, if_neg ha, List.cons_append, ih]
        rfl

theorem dedupByID_dedup_right {l m : List Todo} {s s' : List Int} (hsub : s' ⊆ s) :
    dedupByID (l ++ dedupByID m s') s = dedupByID (l ++ m) s := by
  induction l generalizing s with
  | nil =>
      simp only [List.nil_append]
      exact dedupByID_idem hsub
  | cons a as ih =>
      by_cases ha : a.ID ∈ s
      · simp only [List.cons_append, dedupByID, if_pos ha]
        exact ih hsub
      · simp only [List.cons_append, dedupByID, if_neg ha]
        congr 1
        have hsub' : s' ⊆ a.ID :: s := fun x hx => List.mem_cons_of_mem _ (hsub hx)
        exact ih hsub'

/-! ### Cell-level characterizations of the grid operations -/

theorem merge_cell (s o : SudokuState) (r c : Fin 9) :
    (s.Merge o).Board r c = if o.Board r c = 0 then s.Board r c else o.Board r c := by
  show (if s.Board r c = 0 ∧ o.Board r c ≠ 0 then o.Board r c
    else if s.Board r c ≠ 0 ∧ o.Board r c = 0 then s.Board r c
    else if s.Board r c = o.Board r c then s.Board r c
    else o.Board r c) = if o.Board r c = 0 then s.Board r c else o.Board r c
  split_ifs <;> omega

theorem placeNumber_oob (s : SudokuState) (row col num : Int)
    (h : row < 0 ∨ row > 8 ∨ col < 0 ∨ col > 8) :
    s.PlaceNumber row col num = s := by
  unfold SudokuState.PlaceNumber
  rw [dif_pos h]

theorem placeNumber_bad_num (s : SudokuState) (row col num : Int)
    (h : num < 0 ∨ num > 9) : s.PlaceNumber row col num = s := by
  unfold SudokuState.PlaceNumber
  by_cases hb : row < 0 ∨ row > 8 ∨ col < 0 ∨ col > 8
  · rw [dif_pos hb]
  · rw [dif_neg hb, if_pos h]

theorem placeNumber_val (s : SudokuState) (r c : Fin 9) (num : Int) :
    s.PlaceNumber r.val c.val num =
      if num < 0 ∨ num > 9 then s else placeCell s r c num := by
  have hb : ¬(((r.val : Int)) < 0 ∨ ((r.val : Int)) > 8 ∨
      ((c.val : Int)) < 0 ∨ ((c.val : Int)) > 8) := by
    have hr := r.isLt
    have hc := c.isLt
    omega
  unfold SudokuState.PlaceNumber
  rw [dif_neg hb]
  by_cases hn : num < 0 ∨ num > 9
  · rw [if_pos hn, if_pos hn]
  · rw [if_neg hn, if_neg hn]
    congr 1

theorem placeCell_filled (s : SudokuState) (r c : Fin 9) (num : Int)
    (h : s.Board r c ≠ 0) : placeCell s r c num = s := by
  unfold placeCell
  rw [if_pos h]

theorem placeCell_empty (s : SudokuState) (r c : Fin 9) (num : Int)
    (h : s.Board r c = 0) :
    placeCell s r c num = ⟨fun i j => if i = r ∧ j = c then num else s.Board i j⟩ := by
  unfold placeCell
  rw [if_neg (by simp [h])]

theorem placeNumber_cases (s : SudokuState) (row col num : Int) (i j : Fin 9) :
    (s.PlaceNumber row col num).Board i j = s.Board i j
    ∨ ((s.PlaceNumber row col num).Board i j = num ∧ s.Board i j = 0) := by
  unfold SudokuState.PlaceNumber
  by_cases hb : row < 0 ∨ row > 8 ∨ col < 0 ∨ col > 8
  · rw [dif_pos hb]; exact Or.inl rfl
  · rw [dif_neg hb]
    by_cases hn : num < 0 ∨ num > 9
    · rw [if_pos hn]; exact Or.inl rfl
    · rw [if_neg hn]
      set r : Fin 9 := ⟨row.toNat, by omega⟩ with hr
      set c : Fin 9 := ⟨col.toNat, by omega⟩ with hc
      by_cases hf : s.Board r c ≠ 0
      · rw [placeCell_filled s r c num hf]; exact Or.inl rfl
      · push_neg at hf
        rw [placeCell_empty s r c num hf]
        by_cases hij : i = r ∧ j = c
        · right
          constructor
          · show (if i = r ∧ j = c then num else s.Board i j) = num
            rw [if_pos hij]
          · rw [hij.1, hij.2]; exact hf
        · left
          show (if i = r ∧ j = c then num else s.Board i j) = s.Board i j
          rw [if_neg hij]

/-! ### Example snapshots used by witnesses -/

/-- One-record snapshot: record 1 titled x, counter 2. -/
def exampleTodoA : TodoState :=
  { Todos := [{ ID := 1, Title := "x", Completed := false, CreatedAt := 0 }], NextID := 2 }

/-- One-record snapshot colliding with `exampleTodoA` on ID 1. -/
def exampleTodoB : TodoState :=
  { Todos := [{ ID := 1, Title := "y", Completed := false, CreatedAt := 0 }], NextID := 2 }

/-- One-record snapshot with ID 7, disjoint from `exampleTodoA`. -/
def exampleTodoC : TodoState :=
  { Todos := [{ ID := 7, Title := "z", Completed := false, CreatedAt := 0 }], NextID := 8 }

/-! ### Claim theorems -/

/-- C8: the record-variant `Add` appends exactly one record, carrying
`ID = NextID`, and bumps `NextID` by one; the receiver is an immutable
value, so it is not mutated. -/
theorem todoState_add_spec (s : TodoState) (title : String) (now : Nat) :
    (s.Add title now).Todos =
      s.Todos ++ [{ ID := s.NextID, Title := title, Completed := false, CreatedAt := now }]
    ∧ (s.Add title now).NextID = s.NextID + 1 :=
  ⟨rfl, rfl⟩

/-- C2: the grid-variant `Merge` is the cell-wise combinator: the merged
cell is the other operand's value when the receiver's cell is 0, the
receiver's value when the other's cell is 0, the common value when both
agree, and the right operand's value on a genuine conflict. -/
theorem sudokuState_merge_cells (s o : SudokuState) (r c : Fin 9) :
    (s.Merge o).Board r c =
      if s.Board r c = 0 then o.Board r c
      else if o.Board r c = 0 then s.Board r c
      else if s.Board r c = o.Board r c then s.Board r c
      else o.Board r c := by
  rw [merge_cell]
  split_ifs <;> omega

/-- C6: `PlaceNumber` returns the receiver unchanged on out-of-range
coordinates, on a value outside `0..9`, and on an already-filled cell;
otherwise it writes `num` into exactly the target cell and leaves every
other cell unchanged. -/
theorem placeNumber_spec (s : SudokuState) (row col num : Int) :
    ((row < 0 ∨ row > 8 ∨ col < 0 ∨ col > 8) → s.PlaceNumber row col num = s)
    ∧ ((num < 0 ∨ num > 9) → s.PlaceNumber row col num = s)
    ∧ ∀ r c : Fin 9, row = r.val → col = c.val →
        (s.Board r c ≠ 0 → s.PlaceNumber row col num = s)
        ∧ (s.Board r c = 0 → 0 ≤ num → num ≤ 9 →
            (s.PlaceNumber row col num).Board r c = num
            ∧ ∀ i j : Fin 9, ¬(i = r ∧ j = c) →
                (s.PlaceNumber row col num).Board i j = s.Board i j) := by
  refine ⟨placeNumber_oob s row col num, placeNumber_bad_num s row col num, ?_⟩
  rintro r c rfl rfl
  constructor
  · intro hf
    rw [placeNumber_val]
    by_cases hn : num < 0 ∨ num > 9
    · rw [if_pos hn]
    · rw [if_neg hn]
      exact placeCell_filled s r c num hf
  · intro hempty h0 h9
    have hn : ¬(num < 0 ∨ num > 9) := by omega
    rw [placeNumber_val, if_neg hn, placeCell_empty s r c num hempty]
    constructor
    · show (if r = r ∧ c = c then num else s.Board r c) = num
      simp
    · intro i j hij
      show (if i = r ∧ j = c then num else s.Board i j) = s.Board i j
      rw [if_neg hij]

/-- C6 witness: on the empty board, an out-of-range row is rejected and
an in-range placement writes the value. -/
theorem placeNumber_spec_witness :
    emptySudoku.PlaceNumber 9 0 5 = emptySudoku
    ∧ (emptySudoku.PlaceNumber 0 0 5).Board 0 0 = 5 := by
  constructor
  · exact (placeNumber_spec emptySudoku 9 0 5).1 (by norm_num)
  · exact (((placeNumber_spec emptySudoku 0 0 5).2.2 0 0 (by decide) (by decide)).2
      rfl (by norm_num) (by norm_num)).1

/-- C10: the value guard of `PlaceNumber` admits 0, and placing 0 at any
in-range cell returns a snapshot equal to the receiver (rejected by the
write-once check on a filled cell, a no-op write on an empty one);
moreover no `PlaceNumber` call can clear a filled cell. -/
theorem placeNumber_zero_noop (s : SudokuState) (r c : Fin 9) :
    s.PlaceNumber r.val c.val 0 = s
    ∧ ∀ row col num : Int,
        s.Board r c ≠ 0 → (s.PlaceNumber row col num).Board r c ≠ 0 := by
  constructor
  · rw [placeNumber_val, if_neg (by omega)]
    by_cases hf : s.Board r c ≠ 0
    · exact placeCell_filled s r c 0 hf
    · push_neg at hf
      rw [placeCell_empty s r c 0 hf]
      have hb : (fun i j => if i = r ∧ j = c then (0 : Int) else s.Board i j) = s.Board := by
        funext i j
        by_cases hij : i = r ∧ j = c
        · rw [if_pos hij, hij.1, hij.2, hf]
        · rw [if_neg hij]
      obtain ⟨b⟩ := s
      exact congrArg SudokuState.mk hb
  · intro row col num hf
    rcases placeNumber_cases s row col num r c with h | ⟨h1, h2⟩
    · rw [h]; exact hf
    · exact absurd h2 hf

/-- C10 witness: placing into the filled top-left cell of
`filledSudoku` cannot clear it. -/
theorem placeNumber_zero_noop_witness :
    (filledSudoku.PlaceNumber 0 0 7).Board 0 0 ≠ 0 :=
  (placeNumber_zero_noop filledSudoku 0 0).2 0 0 7 (by decide)

/-- C4: `Merge(a, a) == a` for both variants.  A record snapshot obeys
the data-model invariant that record IDs are unique within it. -/
theorem merge_idempotent (a : TodoState) (ha : (a.Todos.map Todo.ID).Nodup)
    (s : SudokuState) : a.Merge a = a ∧ s.Merge s = s := by
  constructor
  · obtain ⟨l, n⟩ := a
    show TodoState.mk (dedupByID (l ++ l) []) (max n n) = TodoState.mk l n
    have h1 : dedupByID (l ++ l) [] = dedupByID l [] :=
      dedupByID_append_subsumed fun t ht => Or.inr ⟨t, ht, rfl⟩
    have h2 : dedupByID l [] = l :=
      dedupByID_eq_self ha fun t _ => List.not_mem_nil _
    rw [h1, h2, max_self]
  · have h : ∀ r c, (s.Merge s).Board r c = s.Board r c := by
      intro r c
      rw [merge_cell]
      split_ifs with h0
      · rw [h0]
      · rfl
    obtain ⟨b⟩ := s
    exact congrArg SudokuState.mk (funext fun r => funext fun c => h r c)

/-- C4 witness: idempotence at a concrete one-record snapshot and the
empty board. -/
theorem merge_idempotent_witness :
    exampleTodoA.Merge exampleTodoA = exampleTodoA
    ∧ emptySudoku.Merge emptySudoku = emptySudoku :=
  merge_idempotent exampleTodoA (by decide) emptySudoku

/-- C5: under the no-conflict precondition `Merge` commutes: with
disjoint record IDs the two merge orders agree up to record order
(a permutation of the same records) and have equal `NextID`; with no
disagreeing filled cell the two grid merges are equal outright. -/
theorem merge_commutative (a b : TodoState) (hab : TodosDisjoint a b)
    (s o : SudokuState) (hso : NoCellConflict s o) :
    ((a.Merge b).Todos.Perm ((b.Merge a).Todos)
      ∧ (a.Merge b).NextID = (b.Merge a).NextID)
    ∧ s.Merge o = o.Merge s := by
  refine ⟨⟨?_, ?_⟩, ?_⟩
  · show (dedupByID (a.Todos ++ b.Todos) []).Perm (dedupByID (b.Todos ++ a.Todos) [])
    have h1 : dedupByID (a.Todos ++ b.Todos) []
        = dedupByID a.Todos [] ++ dedupByID b.Todos [] :=
      dedupByID_append_disjoint fun t ht u hu => Ne.symm (hab u hu t ht)
    have h2 : dedupByID (b.Todos ++ a.Todos) []
        = dedupByID b.Todos [] ++ dedupByID a.Todos [] :=
      dedupByID_append_disjoint fun t ht u hu => hab t ht u hu
    rw [h1, h2]
    exact List.perm_append_comm
  · show max b.NextID a.NextID = max a.NextID b.NextID
    exact max_comm _ _
  · have h : ∀ r c, (s.Merge o).Board r c = (o.Merge s).Board r c := by
      intro r c
      have hc := hso r c
      rw [merge_cell, merge_cell]
      rcases hc with h0 | h0 | h0 <;> split_ifs <;> omega
    obtain ⟨bs⟩ := s
    obtain ⟨bo⟩ := o
    exact congrArg SudokuState.mk (funext fun r => funext fun c => h r c)

/-- C5 witness: commutativity at concrete disjoint snapshots. -/
theorem merge_commutative_witness :
    ((exampleTodoA.Merge exampleTodoC).Todos.Perm
        ((exampleTodoC.Merge exampleTodoA).Todos)
      ∧ (exampleTodoA.Merge exampleTodoC).NextID
        = (exampleTodoC.Merge exampleTodoA).NextID)
    ∧ filledSudoku.Merge emptySudoku = emptySudoku.Merge filledSudoku :=
  merge_commutative exampleTodoA exampleTodoC (by decide)
    filledSudoku emptySudoku (by decide)

/-- C3: `Merge` is associative on snapshots with pairwise-disjoint
record IDs (record variant) and pairwise-disjoint filled cells (grid
variant). -/
theorem merge_associative (a b c : TodoState)
    (hab : TodosDisjoint a b) (hbc : TodosDisjoint b c) (hac : TodosDisjoint a c)
    (s t u : SudokuState)
    (hst : CellsDisjoint s t) (htu : CellsDisjoint t u) (hsu : CellsDisjoint s u) :
    (a.Merge b).Merge c = a.Merge (b.Merge c)
    ∧ (s.Merge t).Merge u = s.Merge (t.Merge u) := by
  constructor
  · show TodoState.mk
        (dedupByID (dedupByID (a.Todos ++ b.Todos) [] ++ c.Todos) [])
        (max c.NextID (max b.NextID a.NextID))
      = TodoState.mk
        (dedupByID (a.Todos ++ dedupByID (b.Todos ++ c.Todos) []) [])
        (max (max c.NextID b.NextID) a.NextID)
    rw [dedupByID_dedup_left, dedupByID_dedup_right (List.Subset.refl []),
      List.append_assoc]
    rw [max_assoc]
  · have h : ∀ r c, ((s.Merge t).Merge u).Board r c
        = (s.Merge (t.Merge u)).Board r c := by
      intro r c
      simp only [merge_cell]
      split_ifs <;> omega
    obtain ⟨bs⟩ := s
    obtain ⟨bt⟩ := t
    obtain ⟨bu⟩ := u
    exact congrArg SudokuState.mk (funext fun r => funext fun c => h r c)

/-- C3 witness: associativity at concrete pairwise-disjoint snapshots. -/
theorem merge_associative_witness :
    (exampleTodoA.Merge exampleTodoC).Merge newServerState
      = exampleTodoA.Merge (exampleTodoC.Merge newServerState)
    ∧ (filledSudoku.Merge emptySudoku).Merge emptySudoku
      = filledSudoku.Merge (emptySudoku.Merge emptySudoku) :=
  merge_associative exampleTodoA exampleTodoC newServerState
    (by decide) (by decide) (by decide)
    filledSudoku emptySudoku emptySudoku
    (by decide) (by decide) (by decide)

/-- C1: record-variant `Merge` keeps exactly one record per ID present
in either operand, keeps the left operand's record on an ID carried by
both sides, and takes the maximum of the two counters. -/
theorem todoState_merge_spec (a b : TodoState) (i : Int) :
    ((a.Merge b).Todos.countP (fun t => decide (t.ID = i)) =
      if i ∈ a.Todos.map Todo.ID ∨ i ∈ b.Todos.map Todo.ID then 1 else 0)
    ∧ (∀ t ∈ (a.Merge b).Todos, (∃ u ∈ a.Todos, u.ID = t.ID) → t ∈ a.Todos)
    ∧ (a.Merge b).NextID = max a.NextID b.NextID := by
  refine ⟨?_, ?_, max_comm b.NextID a.NextID⟩
  · show (dedupByID (a.Todos ++ b.Todos) []).countP (fun t => decide (t.ID = i)) = _
    rw [dedupByID_countP]
    simp [List.mem_append]
  · rintro t ht ⟨u, hu, hid⟩
    rcases dedupByID_append_mem ht with h | ⟨_, h2, _⟩
    · exact h
    · exact absurd hid (h2 u hu)

/-- C1 witness: merging two snapshots that collide on ID 1 keeps the
left operand's record. -/
theorem todoState_merge_spec_witness :
    ({ ID := 1, Title := "x", Completed := false, CreatedAt := 0 } : Todo)
      ∈ exampleTodoA.Todos :=
  (todoState_merge_spec exampleTodoA exampleTodoB 1).2.1
    { ID := 1, Title := "x", Completed := false, CreatedAt := 0 }
    (by decide)
    ⟨{ ID := 1, Title := "x", Completed := false, CreatedAt := 0 }, by decide, rfl⟩

theorem addAll_ids (l : List (String × Nat)) : ∀ s : TodoState,
    (addAll s l).Todos.map Todo.ID
      = s.Todos.map Todo.ID
        ++ (List.range l.length).map (fun k : Nat => s.NextID + (k : Int)) := by
  induction l with
  | nil => intro s; simp [addAll]
  | cons p rest ih =>
      intro s
      show (addAll (s.Add p.1 p.2) rest).Todos.map Todo.ID = _
      rw [ih]
      simp only [TodoState.Add, List.map_append, List.map_cons, List.map_nil,
        List.length_cons]
      rw [List.append_assoc]
      congr 1
      rw [List.range_succ_eq_map, List.map_cons, List.map_map]
      have hfun : ((fun k : Nat => s.NextID + (k : Int)) ∘ Nat.succ)
          = fun k : Nat => s.NextID + 1 + (k : Int) := by
        funext k
        simp only [Function.comp_apply]
        push_cast
        ring
      rw [hfun]
      simp

/-- C7: starting the two stores from `NewServer`'s state (`NextID = 1`)
and adding 5 records to each gives both IDs 1..5; the merge then keeps
exactly the 5 records of the left store and drops the right store's
records — 5 records, not 10. -/
theorem idCollision_merge (la lb : List (String × Nat))
    (ha : la.length = 5) (hb : lb.length = 5) :
    ((addAll newServerState la).Merge (addAll newServerState lb)).Todos
        = (addAll newServerState la).Todos
    ∧ ((addAll newServerState la).Merge (addAll newServerState lb)).Todos.length
        = 5 := by
  have hidsA : (addAll newServerState la).Todos.map Todo.ID
      = (List.range 5).map (fun k : Nat => (1 : Int) + (k : Int)) := by
    rw [addAll_ids, ha]
    rfl
  have hidsB : (addAll newServerState lb).Todos.map Todo.ID
      = (List.range 5).map (fun k : Nat => (1 : Int) + (k : Int)) := by
    rw [addAll_ids, hb]
    rfl
  have hnd : ((addAll newServerState la).Todos.map Todo.ID).Nodup := by
    rw [hidsA]
    decide
  have heq :
      ((addAll newServerState la).Merge (addAll newServerState lb)).Todos
        = (addAll newServerState la).Todos := by
    show dedupByID
        ((addAll newServerState la).Todos ++ (addAll newServerState lb).Todos) []
      = (addAll newServerState la).Todos
    have hsub : dedupByID
        ((addAll newServerState la).Todos ++ (addAll newServerState lb).Todos) []
        = dedupByID (addAll newServerState la).Todos [] := by
      refine dedupByID_append_subsumed fun t ht => Or.inr ?_
      have h1 : t.ID ∈ (addAll newServerState lb).Todos.map Todo.ID :=
        List.mem_map_of_mem Todo.ID ht
      rw [hidsB, ← hidsA] at h1
      obtain ⟨u, hu, hid⟩ := List.mem_map.mp h1
      exact ⟨u, hu, hid⟩
    rw [hsub]
    exact dedupByID_eq_self hnd fun t _ => List.not_mem_nil _
  refine ⟨heq, ?_⟩
  rw [heq]
  have hlen := congrArg List.length hidsA
  simpa using hlen

/-- C7 witness: five concrete adds on each side, merged to 5 records. -/
def exampleFive : List (String × Nat) :=
  [("a", 0), ("b", 0), ("c", 0), ("d", 0), ("e", 0)]

/-- C7 witness: the merge of two 5-record collision stores has length 5. -/
theorem idCollision_merge_witness :
    ((addAll newServerState exampleFive).Merge
        (addAll newServerState exampleFive)).Todos.length = 5 :=
  (idCollision_merge exampleFive exampleFive rfl rfl).2

/-! ### The store's read / compute / swap control flow

Embedding of the `Apply` pattern of `Server.HandlePlace`
(sudoku-example/server.go): copy the snapshot under the shared lock,
run the transformation with no lock held, then take the exclusive lock
and swap the pointer.  A Go panic inside the transformation is embedded
as an `Except.error` result, as `IsolatedOperation` (faulttest/state.go)
observes it; a panicking run stops before the exclusive-lock phase. -/

/-- Program position of one `Apply` attempt. -/
inductive StorePhase (S : Type) where
  | idle : StorePhase S
  | working : S → StorePhase S
  | swapping : S → StorePhase S
  | panicked : String → StorePhase S
  | finished : StorePhase S

/-- Configuration: committed snapshot, program position, and whether
the exclusive lock is held. -/
structure StoreConfig (S : Type) where
  snapshot : S
  phase : StorePhase S
  exclusive : Bool

/-- One step of the handler: shared-lock read, off-lock compute (which
either yields a new state or panics), exclusive-lock acquire, pointer
swap, release. -/
inductive StoreStep {S : Type} (f : S → Except String S) :
    StoreConfig S → StoreConfig S → Prop where
  | read (s : S) :
      StoreStep f ⟨s, StorePhase.idle, false⟩ ⟨s, StorePhase.working s, false⟩
  | computeOk (s c s' : S) : f c = Except.ok s' →
      StoreStep f ⟨s, StorePhase.working c, false⟩ ⟨s, StorePhase.swapping s', false⟩
  | computeFails (s c : S) (msg : String) : f c = Except.error msg →
      StoreStep f ⟨s, StorePhase.working c, false⟩ ⟨s, StorePhase.panicked msg, false⟩
  | acquire (s s' : S) :
      StoreStep f ⟨s, StorePhase.swapping s', false⟩ ⟨s, StorePhase.swapping s', true⟩
  | swap (s s' : S) :
      StoreStep f ⟨s, StorePhase.swapping s', true⟩ ⟨s', StorePhase.finished, true⟩
  | release (s : S) :
      StoreStep f ⟨s, StorePhase.finished, true⟩ ⟨s, StorePhase.finished, false⟩

/-- Reachability through handler steps. -/
def StoreReach {S : Type} (f : S → Except String S) :
    StoreConfig S → StoreConfig S → Prop :=
  Relation.ReflTransGen (StoreStep f)

/-- C9: when the transformation panics on the committed snapshot, every
configuration reachable from the idle store keeps the exclusive lock
unacquired and the snapshot at its last committed value, the panicked
configuration is reached (the panic propagates, no retry), and it is
terminal. -/
theorem store_failure_atomicity {S : Type} (init : S)
    (f : S → Except String S) (msg : String)
    (hf : f init = Except.error msg) :
    (∀ cfg, StoreReach f ⟨init, StorePhase.idle, false⟩ cfg →
        cfg.exclusive = false ∧ cfg.snapshot = init
        ∧ ∀ m, cfg.phase = StorePhase.panicked m →
            ∀ cfg2, ¬ StoreStep f cfg cfg2)
    ∧ StoreReach f ⟨init, StorePhase.idle, false⟩
        ⟨init, StorePhase.panicked msg, false⟩ := by
  constructor
  · have key : ∀ cfg, StoreReach f ⟨init, StorePhase.idle, false⟩ cfg →
        cfg = ⟨init, StorePhase.idle, false⟩
        ∨ cfg = ⟨init, StorePhase.working init, false⟩
        ∨ cfg = ⟨init, StorePhase.panicked msg, false⟩ := by
      intro cfg h
      induction h with
      | refl => exact Or.inl rfl
      | tail hr hstep ih =>
          rcases ih with rfl | rfl | rfl
          · cases hstep with
            | read => exact Or.inr (Or.inl rfl)
          · cases hstep with
            | computeOk s c s' hok =>
                rw [hf] at hok
                exact absurd hok (by simp)
            | computeFails s c m hm =>
                rw [hf] at hm
                have : msg = m := by
                  injection hm
                rw [this]
                exact Or.inr (Or.inr rfl)
          · cases hstep
    intro cfg h
    rcases key cfg h with rfl | rfl | rfl
    · exact ⟨rfl, rfl, fun m hm => by cases hm⟩
    · exact ⟨rfl, rfl, fun m hm => by cases hm⟩
    · refine ⟨rfl, rfl, fun m _ cfg2 hstep => ?_⟩
      cases hstep
  · exact Relation.ReflTransGen.tail
      (Relation.ReflTransGen.single (StoreStep.read init))
      (StoreStep.computeFails init init msg hf)

/-- C9 witness: a transformation that always panics on an integer store
leaves the store at 0 with the panic reported. -/
theorem store_failure_atomicity_witness :
    StoreReach (fun _ : Int => Except.error "boom")
      ⟨0, StorePhase.idle, false⟩ ⟨0, StorePhase.panicked "boom", false⟩ :=
  (store_failure_atomicity 0 (fun _ : Int => Except.error "boom") "boom" rfl).2
